import Mathlib

/-!
# grpc-proxy: the raw frame codec, the test director and the ping stream

A shallow embedding of

* `proxy/codec/codec.go` (`rawCodec`, `protoCodec`, `Frame`, `NewCodec`,
  `CodecWithParent`),
* the `director` closure of `tests/cmd/test-proxy/main.go`,
* `assertingService.PingStream` of `tests/cmd/test-server/main.go` and the client loop
  of `TestPingStream_FullDuplexWorks` in `proxy/handler_test.go`.

Go values live in an explicit heap. A call either returns or panics, and the panic is
part of the result, so that "returns an error" and "crashes" are different outcomes.
-/

namespace GrpcProxy

/-! ## Go values, heap and call outcomes -/

/-- One Go `byte`. -/
abbrev Byte := Fin 256

/-- The contents of a Go `[]byte` (a nil slice and an empty slice both read as `[]`,
as they do for `bytes.Equal`). -/
abbrev Bytes := List Byte

/-- Go `type Frame struct { payload []byte }`. -/
structure Frame where
  payload : Bytes
deriving DecidableEq, Repr

/-- The program state: the `Frame` object behind every non-nil `*Frame` address, and the
state `rest` of every other object (protobuf messages and whatever a fallback codec
touches). -/
structure Heap (σ : Type) where
  frames : Nat → Frame
  rest : σ

/-- The dynamic type and value held by a Go `interface{}` argument: either a `*Frame`
(the nil pointer is `framePtr none`, a pointer to the frame at address `a` is
`framePtr (some a)`) or a value `x` of any other dynamic type, the nil interface
included. -/
inductive Value (X : Type) where
  | framePtr (p : Option Nat)
  | other (x : X)
deriving DecidableEq, Repr

/-- The gRPC status codes of `google.golang.org/grpc/codes`. -/
inductive Code where
  | OK | Canceled | Unknown | InvalidArgument | DeadlineExceeded | NotFound
  | AlreadyExists | PermissionDenied | ResourceExhausted | FailedPrecondition
  | Aborted | OutOfRange | Unimplemented | Internal | Unavailable | DataLoss
  | Unauthenticated
deriving DecidableEq, Repr

/-- A non-nil Go `error`: a gRPC status error (`status.Errorf`) or any other error,
known by its message. -/
inductive GoError where
  | status (code : Code) (msg : String)
  | plain (msg : String)
deriving DecidableEq, Repr

/-- What a Go run-time panic carries. -/
inductive Panic where
  | nilDereference
  | interfaceConversion
  | custom (msg : String)
deriving DecidableEq, Repr

/-- The outcome of a Go call started in some heap: it returns `result` or it panics;
either way it leaves a heap behind. -/
inductive Run (σ α : Type) where
  | done (result : α) (heap : Heap σ)
  | panic (p : Panic) (heap : Heap σ)

/-- Whether the call returned normally (with a result or an error value) rather than
panicked. -/
def Run.returned {σ α : Type} : Run σ α → Bool
  | .done _ _ => true
  | .panic _ _ => false

/-- What the call returned, if it returned. -/
def Run.result {σ α : Type} : Run σ α → Option α
  | .done result _ => some result
  | .panic _ _ => none

/-- The heap the call left behind. -/
def Run.heap {σ α : Type} : Run σ α → Heap σ
  | .done _ heap => heap
  | .panic _ heap => heap

/-- The heap after the assignment `dst.payload = data` to the frame at address `dst`:
that frame holds `data`, every other object is as before. -/
def Heap.store {σ : Type} (h : Heap σ) (dst : Nat) (data : Bytes) : Heap σ :=
  { h with frames := Function.update h.frames dst { payload := data } }

/-! ## `proxy/codec/codec.go` -/

/-- Go `const codecName = "grpcproxy"`. -/
def codecName : String := "grpcproxy"

/-- Go `const protoCodecName = "proto"`. -/
def protoCodecName : String := "proto"

/-- The interface `encoding.Codec`: `Marshal(v) ([]byte, error)`,
`Unmarshal(data, v) error` and `Name() string`. An error value `none` is Go's `nil`. -/
structure Codec (σ X : Type) where
  Marshal : Value X → Heap σ → Run σ (Bytes × Option GoError)
  Unmarshal : Bytes → Value X → Heap σ → Run σ (Option GoError)
  Name : String

/-- Go `type rawCodec struct { parentCodec encoding.Codec }`. -/
structure rawCodec (σ X : Type) where
  parentCodec : Codec σ X

/-- Go `func (c *rawCodec) Marshal(v interface{}) ([]byte, error)`: the checked type
assertion `out, ok := v.(*Frame)`; when it fails the parent codec is called, otherwise
`out.payload` is read (a nil `out` panics) and returned with a nil error. -/
def rawCodec.Marshal {σ X : Type} (c : rawCodec σ X) (v : Value X) (h : Heap σ) :
    Run σ (Bytes × Option GoError) :=
  match v with
  | .other _ => c.parentCodec.Marshal v h
  | .framePtr none => .panic .nilDereference h
  | .framePtr (some out) => .done ((h.frames out).payload, none) h

/-- Go `func (c *rawCodec) Unmarshal(data []byte, v interface{}) error`: the checked
type assertion `dst, ok := v.(*Frame)`; when it fails the parent codec is called,
otherwise `dst.payload = data` (a nil `dst` panics) and nil is returned. -/
def rawCodec.Unmarshal {σ X : Type} (c : rawCodec σ X) (data : Bytes) (v : Value X)
    (h : Heap σ) : Run σ (Option GoError) :=
  match v with
  | .other _ => c.parentCodec.Unmarshal data v h
  | .framePtr none => .panic .nilDereference h
  | .framePtr (some dst) =>
    .done none (h.store dst data)

/-- Go `func (c *rawCodec) Name() string`. -/
def rawCodec.Name {σ X : Type} (_c : rawCodec σ X) : String := codecName

/-- The `*rawCodec` seen through the interface `encoding.Codec`. -/
def rawCodec.toCodec {σ X : Type} (c : rawCodec σ X) : Codec σ X :=
  { Marshal := c.Marshal, Unmarshal := c.Unmarshal, Name := c.Name }

/-- Go `func CodecWithParent(fallback encoding.Codec) encoding.Codec`. -/
def CodecWithParent {σ X : Type} (fallback : Codec σ X) : Codec σ X :=
  rawCodec.toCodec { parentCodec := fallback }

/-- The part of `github.com/golang/protobuf/proto` that `protoCodec` calls: which
dynamic types implement `proto.Message`, and the functions `proto.Marshal` and
`proto.Unmarshal` on such a message. The library is not part of the repository and is
a parameter of the development. -/
structure ProtoLib (σ X : Type) where
  isMessage : X → Bool
  Marshal : X → Heap σ → Run σ (Bytes × Option GoError)
  Unmarshal : Bytes → X → Heap σ → Run σ (Option GoError)

/-- Go `func (protoCodec) Marshal(v interface{}) ([]byte, error)`:
`proto.Marshal(v.(proto.Message))`. The type assertion is unchecked, so it panics when
the dynamic type of `v` does not implement `proto.Message`; `*Frame` has no methods and
does not implement it. -/
def protoCodec.Marshal {σ X : Type} (lib : ProtoLib σ X) (v : Value X) (h : Heap σ) :
    Run σ (Bytes × Option GoError) :=
  match v with
  | .framePtr _ => .panic .interfaceConversion h
  | .other x => if lib.isMessage x then lib.Marshal x h else .panic .interfaceConversion h

/-- Go `func (protoCodec) Unmarshal(data []byte, v interface{}) error`:
`proto.Unmarshal(data, v.(proto.Message))`, with the same unchecked assertion. -/
def protoCodec.Unmarshal {σ X : Type} (lib : ProtoLib σ X) (data : Bytes) (v : Value X)
    (h : Heap σ) : Run σ (Option GoError) :=
  match v with
  | .framePtr _ => .panic .interfaceConversion h
  | .other x =>
    if lib.isMessage x then lib.Unmarshal data x h else .panic .interfaceConversion h

/-- Go `func (protoCodec) Name() string`. -/
def protoCodec.Name : String := protoCodecName

/-- The value `protoCodec{}` seen through the interface `encoding.Codec`. -/
def protoCodec {σ X : Type} (lib : ProtoLib σ X) : Codec σ X :=
  { Marshal := protoCodec.Marshal lib
    Unmarshal := protoCodec.Unmarshal lib
    Name := protoCodec.Name }

/-- Go `func NewCodec() encoding.Codec`: `CodecWithParent(protoCodec{})`. -/
def NewCodec {σ X : Type} (lib : ProtoLib σ X) : Codec σ X :=
  CodecWithParent (protoCodec lib)

/-- A codec whose `Marshal` and `Unmarshal` return an error on every call, whatever the
value. -/
def failingCodec (σ X : Type) : Codec σ X :=
  { Marshal := fun _ h => .done ([], some (.plain "marshal refused")) h
    Unmarshal := fun _ _ h => .done (some (.plain "unmarshal refused")) h
    Name := "failing" }

/-! ### A small world to evaluate the codec in -/

/-- The dynamic types other than `*Frame` used to evaluate the codec: a
`*pb.PingRequest` (nil, or the message at an address), which implements
`proto.Message`, and a plain Go `string`, which does not. -/
inductive TestValue where
  | pingRequest (p : Option Nat)
  | goString (s : String)
deriving DecidableEq, Repr

/-- A stand-in for the protobuf library on `TestValue`: the state keeps each message as
its wire bytes, `Marshal` reads them, `Unmarshal` stores them, and a nil message is
refused with an error, as `proto.Marshal` and `proto.Unmarshal` do. -/
def testProto : ProtoLib (Nat → Bytes) TestValue :=
  { isMessage := fun x =>
      match x with
      | .pingRequest _ => true
      | .goString _ => false
    Marshal := fun x h =>
      match x with
      | .pingRequest (some a) => .done (h.rest a, none) h
      | _ => .done ([], some (.plain "proto: Marshal called with nil")) h
    Unmarshal := fun data x h =>
      match x with
      | .pingRequest (some a) => .done none { h with rest := Function.update h.rest a data }
      | _ => .done (some (.plain "proto: Unmarshal called with nil")) h }

/-- A heap in which every frame and every message is empty. -/
def emptyHeap : Heap (Nat → Bytes) :=
  { frames := fun _ => { payload := [] }, rest := fun _ => [] }

/-! ## The director of `tests/cmd/test-proxy/main.go` -/

/-- Go `const clientMdKey = "test-client-header"`. -/
def clientMdKey : String := "test-client-header"

/-- Go `const rejectingMdKey = "test-reject-rpc-if-in-context"`. -/
def rejectingMdKey : String := "test-reject-rpc-if-in-context"

/-- The content subtype the test client asks for,
`grpc.CallContentSubtype("grpcproxy")` in `ProxyHappySuite.SetupSuite`, which is also
the name `test-proxy` and `test-server` look up with `encoding.GetCodec("grpcproxy")`. -/
def clientContentSubtype : String := "grpcproxy"

/-- The type `metadata.MD`, Go `map[string][]string`, as its entries. -/
abbrev MD := List (String × List String)

/-- The two context keys of `google.golang.org/grpc/metadata`. -/
inductive ContextKey where
  | mdIncomingKey
  | mdOutgoingKey
deriving DecidableEq, Repr

/-- A Go `context.Context` as the chain of derivations that built it: the root, a
`context.WithCancel` (or `WithTimeout`) child, or a `context.WithValue` child that
carries metadata under one of the two metadata keys. -/
inductive Context where
  | background
  | withCancel (parent : Context)
  | withValue (parent : Context) (key : ContextKey) (val : MD)
deriving DecidableEq, Repr

/-- Go `ctx.Value(key)`: the innermost value stored under `key`, if any. -/
def Context.Value : Context → ContextKey → Option MD
  | .background, _ => none
  | .withCancel parent, key => parent.Value key
  | .withValue parent k val, key => if k = key then some val else parent.Value key

/-- Library `metadata.FromIncomingContext(ctx)`: the incoming metadata of `ctx` and
`true`, or the nil map and `false` when there is none. -/
def FromIncomingContext (ctx : Context) : MD × Bool :=
  match ctx.Value .mdIncomingKey with
  | some md => (md, true)
  | none => ([], false)

/-- Library `metadata.FromOutgoingContext(ctx)`: the outgoing metadata of `ctx` and
`true`, or the nil map and `false` when there is none. -/
def FromOutgoingContext (ctx : Context) : MD × Bool :=
  match ctx.Value .mdOutgoingKey with
  | some md => (md, true)
  | none => ([], false)

/-- Library `metadata.NewOutgoingContext(ctx, md)`: a child of `ctx` whose outgoing
metadata is `md`. -/
def NewOutgoingContext (ctx : Context) (md : MD) : Context :=
  .withValue ctx .mdOutgoingKey md

/-- Library `md.Copy()`: a fresh map with, for every key of `md`, a copy of its values;
the copy of the nil map is the empty map. -/
def MD.Copy (md : MD) : MD :=
  md.map fun kv => (kv.1, kv.2.map id)

/-- Go `_, exists := md[key]`: whether `key` is a key of the map, whatever its value. -/
def MD.exists (md : MD) (key : String) : Bool :=
  (md.lookup key).isSome

/-- Library `status.Errorf(c, format)` called without arguments on a format without
verbs: the status error of code `c` whose message is `format`. -/
def status.Errorf (c : Code) (format : String) : GoError :=
  .status c format

/-- Library `status.FromError(err)` followed by `st.Code()` and `st.Message()`: for a
status error its code and message with `ok = true`; for a nil error code `OK` with
`ok = true`; for any other error code `Unknown`, the error text and `ok = false`. -/
def status.FromError (err : Option GoError) : (Code × String) × Bool :=
  match err with
  | none => ((.OK, ""), true)
  | some (.status c msg) => ((c, msg), true)
  | some (.plain msg) => ((.Unknown, msg), false)

/-- The closure `director` of `tests/cmd/test-proxy/main.go`, over the backend
connection `s` dialled in `main` (`none` in the result is the nil `*grpc.ClientConn`):
it returns the context for the backend leg, the backend connection and an error. -/
def director {Conn : Type} (s : Conn) (ctx : Context) (_fullName : String) :
    Context × Option Conn × Option GoError :=
  match FromIncomingContext ctx with
  | (md, ok) =>
    if ok && md.exists rejectingMdKey then
      (ctx, none, some (status.Errorf .PermissionDenied "testing rejection"))
    else
      let outCtx := Context.withCancel ctx
      let outCtx := NewOutgoingContext outCtx md.Copy
      (outCtx, some s, none)

/-- The keys of the metadata a call arrived with (none when the context carries no
incoming metadata). -/
def Context.incomingKeys (ctx : Context) : List String :=
  match ctx.Value .mdIncomingKey with
  | some md => md.map Prod.fst
  | none => []

/-! ## The codec registry -/

/-- Library `strings.ToLower`. -/
def toLower (s : String) : String :=
  String.mk (s.data.map Char.toLower)

/-- The registry of `google.golang.org/grpc/encoding`: the codecs by content subtype,
latest registration first. -/
abbrev Registry (σ X : Type) := List (String × Codec σ X)

/-- Library `encoding.RegisterCodec(codec)`: the codec is stored under its lower-cased
`Name()`, in front of (so replacing) any codec stored under that name before. -/
def RegisterCodec {σ X : Type} (codec : Codec σ X) (reg : Registry σ X) : Registry σ X :=
  (toLower codec.Name, codec) :: reg

/-- Library `encoding.GetCodec(contentSubtype)`: the codec stored under that name, or
nil. -/
def GetCodec {σ X : Type} (reg : Registry σ X) (contentSubtype : String) :
    Option (Codec σ X) :=
  (reg.find? fun entry => entry.1 == contentSubtype).map Prod.snd

/-- Go `func init()` of `codec.go`: `encoding.RegisterCodec(NewCodec())`. -/
def init {σ X : Type} (lib : ProtoLib σ X) (reg : Registry σ X) : Registry σ X :=
  RegisterCodec (NewCodec lib) reg

/-! ## `PingStream` through the proxy -/

/-- The message `pb.PingRequest`. -/
structure PingRequest where
  Value : String
deriving DecidableEq, Repr

/-- The message `pb.PingResponse`; `Counter` is a Go `int32`. -/
structure PingResponse where
  Value : String
  Counter : Int
deriving DecidableEq, Repr

/-- The value of an integer as a Go `int32`: two's complement wrap-around into
`[-2^31, 2^31)`. -/
def wrapInt32 (x : Int) : Int :=
  (x + 2147483648) % 4294967296 - 2147483648

/-- Library `codes.Code.String()`. -/
def Code.String : Code → String
  | .OK => "OK"
  | .Canceled => "Canceled"
  | .Unknown => "Unknown"
  | .InvalidArgument => "InvalidArgument"
  | .DeadlineExceeded => "DeadlineExceeded"
  | .NotFound => "NotFound"
  | .AlreadyExists => "AlreadyExists"
  | .PermissionDenied => "PermissionDenied"
  | .ResourceExhausted => "ResourceExhausted"
  | .FailedPrecondition => "FailedPrecondition"
  | .Aborted => "Aborted"
  | .OutOfRange => "OutOfRange"
  | .Unimplemented => "Unimplemented"
  | .Internal => "Internal"
  | .Unavailable => "Unavailable"
  | .DataLoss => "DataLoss"
  | .Unauthenticated => "Unauthenticated"

/-- Go `err.Error()`. -/
def GoError.Error : GoError → String
  | .plain msg => msg
  | .status c msg => "rpc error: code = " ++ c.String ++ " desc = " ++ msg

/-- What `stream.Recv()` returns: a message, `io.EOF`, or another error. -/
inductive RecvResult (α : Type) where
  | msg (m : α)
  | eof
  | err (e : GoError)
deriving DecidableEq, Repr

/-- The request direction of one leg of the call: the messages sent and not yet
received, oldest first, and whether the sender has half-closed (`CloseSend`). -/
structure RequestLeg where
  buf : List PingRequest
  closed : Bool
deriving DecidableEq, Repr

/-- The response direction of one leg of the call: the messages sent and not yet
received, oldest first, and the final status once the sender has returned (`some none`
is status OK). -/
structure ResponseLeg where
  buf : List PingResponse
  ended : Option (Option GoError)
deriving DecidableEq, Repr

/-- The receiver's `Recv()` on a request leg: the oldest message in flight; `io.EOF`
once the sender has half-closed and nothing is in flight; `none` while it blocks. -/
def RequestLeg.Recv (l : RequestLeg) : Option (RecvResult PingRequest × RequestLeg) :=
  match l.buf with
  | m :: rest => some (.msg m, { l with buf := rest })
  | [] => if l.closed then some (.eof, l) else none

/-- The receiver's `Recv()` on a response leg: the oldest message in flight; once the
sender has returned and nothing is in flight, `io.EOF` for status OK and the error
otherwise; `none` while it blocks. -/
def ResponseLeg.Recv (l : ResponseLeg) : Option (RecvResult PingResponse × ResponseLeg) :=
  match l.buf with
  | m :: rest => some (.msg m, { l with buf := rest })
  | [] =>
    match l.ended with
    | none => none
    | some none => some (.eof, l)
    | some (some e) => some (.err e, l)

/-- Where the client of `TestPingStream_FullDuplexWorks` stands: about to `Send` in the
loop (or to leave it), about to `Recv` in the loop, about to `Recv` after `CloseSend`,
done with what that last `Recv` returned, or stopped by a failed `require`. -/
inductive ClientPC where
  | loopSend
  | loopRecv
  | finalRecv
  | finished (last : RecvResult PingResponse)
  | failed (e : GoError)
deriving DecidableEq, Repr

/-- One `PingStream` call through the proxy: the client (`pc`, the requests it has yet
to send, the responses it has received), the four stream directions (caller to proxy,
proxy to backend, backend to proxy, proxy to caller) and the backend's `counter`. A
frame in flight is written as the message it encodes: the proxy moves it without
looking inside. -/
structure State where
  pc : ClientPC
  remaining : List PingRequest
  received : List PingResponse
  c2p : RequestLeg
  p2b : RequestLeg
  b2p : ResponseLeg
  p2c : ResponseLeg
  counter : Int
deriving DecidableEq, Repr

/-- The start of the call: the client is about to send the first of `reqs`, nothing is
in flight, `counter := int32(0)`. -/
def State.start (reqs : List PingRequest) : State :=
  { pc := .loopSend, remaining := reqs, received := []
    c2p := { buf := [], closed := false }, p2b := { buf := [], closed := false }
    b2p := { buf := [], ended := none }, p2c := { buf := [], ended := none }
    counter := 0 }

/-- The client of `TestPingStream_FullDuplexWorks`, one statement at a time, for the
requests `remaining` in place of the twenty `foo:i`: in the loop `Send(ping)` then
`Recv()` (`io.EOF` breaks the loop, another error fails `require.NotNil`, a response is
kept); after the loop `CloseSend()` and a last `Recv()`. `none` when the client blocks
or is done. -/
def TestPingStream_FullDuplexWorks (s : State) : Option State :=
  match s.pc with
  | .loopSend =>
    match s.remaining with
    | ping :: rest =>
      some { s with c2p := { s.c2p with buf := s.c2p.buf ++ [ping] }
                    remaining := rest, pc := .loopRecv }
    | [] => some { s with c2p := { s.c2p with closed := true }, pc := .finalRecv }
  | .loopRecv =>
    match s.p2c.Recv with
    | none => none
    | some (.msg resp, p2c) =>
      some { s with p2c := p2c, received := s.received ++ [resp], pc := .loopSend }
    | some (.eof, p2c) =>
      some { s with p2c := p2c, c2p := { s.c2p with closed := true }, pc := .finalRecv }
    | some (.err e, p2c) => some { s with p2c := p2c, pc := .failed e }
  | .finalRecv =>
    match s.p2c.Recv with
    | none => none
    | some (last, p2c) => some { s with p2c := p2c, pc := .finished last }
  | .finished _ => none
  | .failed _ => none

/-- Go `func (s *assertingService) PingStream(stream)` of `test-server/main.go`, one
turn of its `for` loop: `stream.Recv()`; on `io.EOF` it breaks and returns nil; on
another error it returns an error; otherwise it sends
`PingResponse{Value: ping.Value, Counter: counter}` and does `counter++` on the `int32`.
`none` when `Recv` blocks or the method has returned. Response headers and trailers are
not part of the state, and `Send` does not fail. -/
def assertingService.PingStream (s : State) : Option State :=
  match s.b2p.ended with
  | some _ => none
  | none =>
    match s.p2b.Recv with
    | none => none
    | some (.eof, p2b) => some { s with p2b := p2b, b2p := { s.b2p with ended := some none } }
    | some (.err e, p2b) =>
      some { s with p2b := p2b
                    b2p := { s.b2p with
                      ended := some (some (.plain ("can't fail reading stream: " ++ e.Error))) } }
    | some (.msg ping, p2b) =>
      let pong : PingResponse := { Value := ping.Value, Counter := s.counter }
      some { s with p2b := p2b, b2p := { s.b2p with buf := s.b2p.buf ++ [pong] }
                    counter := wrapInt32 (s.counter + 1) }

/-- Modelled from the spec: the caller-to-backend pump of the stream proxy (the handler,
`proxy/handler.go`, is not among the sources). Spec 4.3: it "reads each inbound frame in
order and writes it unmodified to the backend leg; when the caller signals no more
input, the pump half-closes the backend leg's input ... and stops". `none` when the pump
blocks or has stopped. -/
def callerToBackendPump (s : State) : Option State :=
  if s.p2b.closed then none
  else
    match s.c2p.Recv with
    | none => none
    | some (.msg frame, c2p) =>
      some { s with c2p := c2p, p2b := { s.p2b with buf := s.p2b.buf ++ [frame] } }
    | some (_, c2p) => some { s with c2p := c2p, p2b := { s.p2b with closed := true } }

/-- Modelled from the spec: the backend-to-caller pump of the stream proxy (the handler,
`proxy/handler.go`, is not among the sources). Spec 4.3: it "reads each frame the
backend produces, in order, and writes it unmodified to the caller"; when the backend
leg terminates the proxy "captures the backend's final status", relayed verbatim, and
flushes it to the caller "after both directions have reached a terminal outcome", the
caller-to-backend pump being cancelled if the backend failed. `none` when the pump
blocks or has stopped. -/
def backendToCallerPump (s : State) : Option State :=
  match s.p2c.ended with
  | some _ => none
  | none =>
    match s.b2p.Recv with
    | none => none
    | some (.msg frame, b2p) =>
      some { s with b2p := b2p, p2c := { s.p2c with buf := s.p2c.buf ++ [frame] } }
    | some (.eof, b2p) =>
      if s.p2b.closed then some { s with b2p := b2p, p2c := { s.p2c with ended := some none } }
      else none
    | some (.err e, b2p) =>
      some { s with b2p := b2p, p2b := { s.p2b with closed := true }
                    p2c := { s.p2c with ended := some (some e) } }

/-- The states the call can move to in one step from `s`: the client, the two pumps of
the proxy and the backend run concurrently, and any one of them that is not blocked may
take the next step. -/
def next (s : State) : List State :=
  [TestPingStream_FullDuplexWorks s, callerToBackendPump s, assertingService.PingStream s,
    backendToCallerPump s].reduceOption

/-- One step of the call. -/
def Step (s t : State) : Prop := t ∈ next s

/-- The states the call can reach from `s` by any interleaving of steps. -/
def Reachable (s t : State) : Prop := Relation.ReflTransGen Step s t

/-- One schedule: `fuel` steps from `s`, each time the first participant that is not
blocked, stopping when none can move. -/
def runFuel : Nat → State → State
  | 0, s => s
  | fuel + 1, s =>
    match (next s).head? with
    | none => s
    | some t => runFuel fuel t

/-- The responses `PingStream` sends for the requests `reqs` when `n` responses have
been sent before: each carries the value of its request and the `int32` counter. -/
def pongsFrom (n : Nat) : List PingRequest → List PingResponse
  | [] => []
  | ping :: rest => { Value := ping.Value, Counter := wrapInt32 n } :: pongsFrom (n + 1) rest

/-- The responses as the full-duplex property of the specification describes them: the
`i`-th carries the value of the `i`-th request and `Counter = i`, an unbounded integer. -/
def pongsClaimed (n : Nat) : List PingRequest → List PingResponse
  | [] => []
  | ping :: rest => { Value := ping.Value, Counter := n } :: pongsClaimed (n + 1) rest

/-- An upper bound on the number of steps left from `s`. -/
def State.fuel (s : State) : Nat :=
  5 * s.remaining.length + 4 * s.c2p.buf.length + 3 * s.p2b.buf.length
    + 2 * s.b2p.buf.length + s.p2c.buf.length
    + (match s.pc with
        | .loopSend => 2
        | .loopRecv => 2
        | .finalRecv => 1
        | .finished _ => 0
        | .failed _ => 0)
    + (if s.p2b.closed then 0 else 1)
    + (if s.b2p.ended.isSome then 0 else 1)
    + (if s.p2c.ended.isSome then 0 else 1)

/-- What the messages in flight and the backend's counter have to do with the requests
`reqs` of the call: the backend has answered a prefix `done` of `reqs`, the requests
still to be answered are those in flight towards it followed by those the client has
not sent, the responses to `done` are those the client holds followed by those in
flight towards it, and the counter is the `int32` of the number answered. -/
def InvData (reqs : List PingRequest) (s : State) : Prop :=
  ∃ done : List PingRequest,
    reqs = done ++ (s.p2b.buf ++ s.c2p.buf ++ s.remaining)
      ∧ s.received ++ s.p2c.buf ++ s.b2p.buf = pongsFrom 0 done
      ∧ s.counter = wrapInt32 done.length

/-- Where the participants stand relative to one another: in the loop nothing is
closed and the client has either nothing in flight (before `Send`) or exactly one
message (before `Recv`); after `CloseSend` nothing is in flight and the close travels
caller, proxy, backend, proxy, caller, every status being OK; the client never fails. -/
def InvCtl (s : State) : Prop :=
  match s.pc with
  | .loopSend =>
    s.c2p = ⟨[], false⟩ ∧ s.p2b = ⟨[], false⟩ ∧ s.b2p = ⟨[], none⟩ ∧ s.p2c = ⟨[], none⟩
  | .loopRecv =>
    s.c2p.closed = false ∧ s.p2b.closed = false ∧ s.b2p.ended = none ∧ s.p2c.ended = none
      ∧ s.c2p.buf.length + s.p2b.buf.length + s.b2p.buf.length + s.p2c.buf.length = 1
  | .finalRecv =>
    s.remaining = [] ∧ s.c2p = ⟨[], true⟩ ∧ s.p2b.buf = [] ∧ s.b2p.buf = [] ∧ s.p2c.buf = []
      ∧ (s.b2p.ended = none ∨ (s.b2p.ended = some none ∧ s.p2b.closed = true))
      ∧ (s.p2c.ended = none ∨ (s.p2c.ended = some none ∧ s.b2p.ended = some none))
  | .finished last =>
    last = .eof ∧ s.remaining = [] ∧ s.c2p = ⟨[], true⟩ ∧ s.p2b = ⟨[], true⟩
      ∧ s.b2p = ⟨[], some none⟩ ∧ s.p2c = ⟨[], some none⟩
  | .failed _ => False

/-- The invariant of a `PingStream` call with requests `reqs`. -/
def Inv (reqs : List PingRequest) (s : State) : Prop :=
  InvData reqs s ∧ InvCtl s

/-! ## Theorems: the raw codec -/

theorem Heap.store_payload {σ : Type} (h : Heap σ) (dst : Nat) (data : Bytes) :
    ((h.store dst data).frames dst).payload = data := by
  simp [Heap.store]

theorem Heap.store_store {σ : Type} (h : Heap σ) (dst : Nat) (p q : Bytes) :
    (h.store dst p).store dst q = h.store dst q := by
  simp [Heap.store]

theorem Heap.store_other {σ : Type} (h : Heap σ) (dst a : Nat) (data : Bytes)
    (hne : a ≠ dst) : (h.store dst data).frames a = h.frames a := by
  simp [Heap.store, Function.update_noteq hne]

theorem Heap.store_rest {σ : Type} (h : Heap σ) (dst : Nat) (data : Bytes) :
    (h.store dst data).rest = h.rest := rfl

/-- C1. Round trip of the raw codec: for every fallback codec, every byte sequence `P`
(the empty and the one-byte sequences included) and every frame, `Unmarshal(P, frame)`
returns a nil error, and the `Marshal(frame)` that follows returns a nil error and
exactly `P`, leaving the heap as `Unmarshal` left it. -/
theorem codec_round_trip {σ X : Type} (fallback : Codec σ X) (P : Bytes) (frame : Nat)
    (h : Heap σ) :
    (CodecWithParent fallback).Unmarshal P (.framePtr (some frame)) h
        = .done none (h.store frame P)
      ∧ (CodecWithParent fallback).Marshal (.framePtr (some frame)) (h.store frame P)
        = .done (P, none) (h.store frame P) := by
  constructor
  · rfl
  · simp [CodecWithParent, rawCodec.toCodec, rawCodec.Marshal, Heap.store_payload]

/-- C2. Fallback equivalence: for every fallback codec `f` and every value `v` that is
not a `*Frame`, `CodecWithParent(f).Marshal(v)` is the outcome of `f.Marshal(v)` and
`CodecWithParent(f).Unmarshal(data, v)` is the outcome of `f.Unmarshal(data, v)`: the
same bytes, the same error (nil or not), the same state left behind. -/
theorem codec_fallback_equiv {σ X : Type} (f : Codec σ X) (x : X) (data : Bytes)
    (h : Heap σ) :
    (CodecWithParent f).Marshal (.other x) h = f.Marshal (.other x) h
      ∧ (CodecWithParent f).Unmarshal data (.other x) h = f.Unmarshal data (.other x) h :=
  ⟨rfl, rfl⟩

/-- C3. The opaque path never fails and never reads the bytes: for every fallback
codec `f`, every byte sequence and every non-nil frame, `Unmarshal` into the frame
returns a nil error and `Marshal` of the frame returns its payload with a nil error;
both outcomes are the same under any other fallback `g`, and in particular under the
fallback whose every call fails. -/
theorem codec_frame_path_total {σ X : Type} (f g : Codec σ X) (data : Bytes) (frame : Nat)
    (h : Heap σ) :
    (CodecWithParent f).Unmarshal data (.framePtr (some frame)) h
        = .done none (h.store frame data)
      ∧ (CodecWithParent f).Marshal (.framePtr (some frame)) h
        = .done ((h.frames frame).payload, none) h
      ∧ (CodecWithParent f).Unmarshal data (.framePtr (some frame)) h
        = (CodecWithParent g).Unmarshal data (.framePtr (some frame)) h
      ∧ (CodecWithParent f).Marshal (.framePtr (some frame)) h
        = (CodecWithParent g).Marshal (.framePtr (some frame)) h
      ∧ (CodecWithParent (failingCodec σ X)).Unmarshal data (.framePtr (some frame)) h
        = .done none (h.store frame data)
      ∧ (CodecWithParent (failingCodec σ X)).Marshal (.framePtr (some frame)) h
        = .done ((h.frames frame).payload, none) h :=
  ⟨rfl, rfl, rfl, rfl, rfl, rfl⟩

theorem init_registers {σ X : Type} (lib : ProtoLib σ X) (reg : Registry σ X) :
    ∃ rest, init lib reg = ("grpcproxy", NewCodec lib) :: rest := by
  refine ⟨reg, ?_⟩
  show (toLower codecName, NewCodec lib) :: reg = _
  have h : toLower codecName = "grpcproxy" := by decide
  rw [h]

/-- C4. The codec that `init` registers, `NewCodec()`, reports the name "grpcproxy";
its fallback `protoCodec` reports "proto"; the two names differ; "grpcproxy" is the
content subtype the test client requests; and after `init`, whatever was registered
before, `GetCodec` of that content subtype finds a codec named "grpcproxy". -/
theorem newCodec_name {σ X : Type} (lib : ProtoLib σ X) (reg : Registry σ X) :
    (NewCodec lib).Name = "grpcproxy"
      ∧ (protoCodec lib).Name = "proto"
      ∧ (NewCodec lib).Name ≠ (protoCodec lib).Name
      ∧ clientContentSubtype = (NewCodec lib).Name
      ∧ (GetCodec (init lib reg) clientContentSubtype).map (fun c => c.Name)
          = some "grpcproxy" := by
  refine ⟨rfl, rfl, ?_, rfl, ?_⟩
  · show codecName ≠ protoCodecName
    decide
  · obtain ⟨rest, hreg⟩ := init_registers lib reg
    rw [hreg]
    have hk : (("grpcproxy" : String) == clientContentSubtype) = true := by decide
    simp only [GetCodec, List.find?, hk, Option.map]
    rfl

/-- C8. Frame reuse: for all byte sequences `P` and `Q`, `Unmarshal(P, frame)` followed
by `Unmarshal(Q, frame)` on the same frame and then `Marshal(frame)` returns exactly
`Q` with a nil error; the frame holds `Q` and the heap is the one a single
`Unmarshal(Q, frame)` would leave, so nothing of `P` remains. -/
theorem codec_frame_reuse {σ X : Type} (fallback : Codec σ X) (P Q : Bytes) (frame : Nat)
    (h : Heap σ) :
    (CodecWithParent fallback).Unmarshal P (.framePtr (some frame)) h
        = .done none (h.store frame P)
      ∧ (CodecWithParent fallback).Unmarshal Q (.framePtr (some frame)) (h.store frame P)
        = .done none (h.store frame Q)
      ∧ (CodecWithParent fallback).Marshal (.framePtr (some frame)) (h.store frame Q)
        = .done (Q, none) (h.store frame Q)
      ∧ ((h.store frame Q).frames frame).payload = Q := by
  refine ⟨rfl, ?_, ?_, Heap.store_payload h frame Q⟩
  · show Run.done none ((h.store frame P).store frame Q) = _
    rw [Heap.store_store]
  · simp [CodecWithParent, rawCodec.toCodec, rawCodec.Marshal, Heap.store_payload]

/-- C9. Where the default codec panics: when the dynamic type of `v` is not `*Frame`
and does not implement `proto.Message`, `NewCodec().Marshal(v)` and
`NewCodec().Unmarshal(data, v)` do not return an error, they panic on the unchecked
type assertion of `protoCodec`; and both panic as well on a nil `*Frame`. -/
theorem newCodec_panics {σ X : Type} (lib : ProtoLib σ X) (x : X) (data : Bytes)
    (h : Heap σ) (hx : lib.isMessage x = false) :
    (NewCodec lib).Marshal (.other x) h = .panic .interfaceConversion h
      ∧ (NewCodec lib).Unmarshal data (.other x) h = .panic .interfaceConversion h
      ∧ (NewCodec lib).Marshal (.framePtr none) h = .panic .nilDereference h
      ∧ (NewCodec lib).Unmarshal data (.framePtr none) h = .panic .nilDereference h := by
  refine ⟨?_, ?_, rfl, rfl⟩
  · show protoCodec.Marshal lib (.other x) h = _
    simp [protoCodec.Marshal, hx]
  · show protoCodec.Unmarshal lib data (.other x) h = _
    simp [protoCodec.Unmarshal, hx]

/-- C9 at a concrete input: a Go string handed to the default codec. -/
theorem newCodec_panics_witness :
    ((NewCodec testProto).Marshal (.other (.goString "ping")) emptyHeap).returned = false
      ∧ ((NewCodec testProto).Unmarshal [0x55] (.other (.goString "ping"))
          emptyHeap).returned = false := by
  have w := newCodec_panics testProto (.goString "ping") [0x55] emptyHeap rfl
  rw [w.1, w.2.1]
  exact ⟨rfl, rfl⟩

/-- C10. The name does not depend on the parent: for every fallback codec `f`,
`CodecWithParent(f).Name()` is "grpcproxy"; so `CodecWithParent(NewCodec())` has the
very name of its own fallback `NewCodec()`. -/
theorem codecWithParent_name {σ X : Type} (f : Codec σ X) (lib : ProtoLib σ X) :
    (CodecWithParent f).Name = "grpcproxy"
      ∧ (CodecWithParent (NewCodec lib)).Name = (NewCodec lib).Name :=
  ⟨rfl, rfl⟩

/-- The test `TestCodec_ReadYourWrites`: `DE AD BE EF` decoded into a fresh frame is
encoded back unchanged, and so is `55` decoded into the same frame afterwards. -/
theorem TestCodec_ReadYourWrites :
    ((NewCodec testProto).Unmarshal [0xDE, 0xAD, 0xBE, 0xEF] (.framePtr (some 0))
        emptyHeap).result = some none
      ∧ ((NewCodec testProto).Marshal (.framePtr (some 0))
          ((NewCodec testProto).Unmarshal [0xDE, 0xAD, 0xBE, 0xEF] (.framePtr (some 0))
            emptyHeap).heap).result = some ([0xDE, 0xAD, 0xBE, 0xEF], none)
      ∧ ((NewCodec testProto).Marshal (.framePtr (some 0))
          ((NewCodec testProto).Unmarshal [0x55] (.framePtr (some 0))
            ((NewCodec testProto).Unmarshal [0xDE, 0xAD, 0xBE, 0xEF] (.framePtr (some 0))
              emptyHeap).heap).heap).result = some ([0x55], none) := by
  refine ⟨rfl, ?_, ?_⟩ <;> decide

/-- The proxy codec hands a nil `*pb.PingRequest` to the protobuf library and returns
its error unchanged. -/
theorem newCodec_error_passes :
    ((NewCodec testProto).Marshal (.other (.pingRequest none)) emptyHeap).result
      = some ([], some (.plain "proto: Marshal called with nil")) := by
  decide

/-! ## Theorems: the director -/

theorem MD.Copy_eq (md : MD) : md.Copy = md := by
  simp [MD.Copy]

theorem MD.exists_iff (md : MD) (key : String) :
    md.exists key = true ↔ key ∈ md.map Prod.fst := by
  induction md with
  | nil => simp [MD.exists]
  | cons kv rest ih =>
    obtain ⟨k, v⟩ := kv
    by_cases hk : key = k
    · subst hk
      simp [MD.exists, List.lookup]
    · have hb : (key == k) = false := by simp [hk]
      have ih2 := ih
      simp only [MD.exists] at ih2
      simp [MD.exists, List.lookup, hb, hk, ih2]

/-- The director rejects exactly when the rejecting key is among the incoming keys. -/
theorem director_guard (ctx : Context) :
    ((FromIncomingContext ctx).2 && (FromIncomingContext ctx).1.exists rejectingMdKey) = true
      ↔ rejectingMdKey ∈ ctx.incomingKeys := by
  unfold FromIncomingContext Context.incomingKeys
  cases hmd : ctx.Value .mdIncomingKey with
  | none => simp [MD.exists]
  | some md => simp [MD.exists_iff]

/-- C5. Director rejection: whenever the inbound metadata has the key
"test-reject-rpc-if-in-context" (whatever its values), the director returns the nil
connection and the status error of code `PermissionDenied` and message
"testing rejection", which is what `status.FromError` shows to the caller; and the
director returns a non-nil error in that case only. -/
theorem director_rejects {Conn : Type} (s : Conn) (ctx : Context) (fullName : String) :
    (rejectingMdKey ∈ ctx.incomingKeys →
        director s ctx fullName
          = (ctx, none, some (.status .PermissionDenied "testing rejection"))
        ∧ status.FromError (director s ctx fullName).2.2
          = ((.PermissionDenied, "testing rejection"), true))
      ∧ ((director s ctx fullName).2.2 ≠ none ↔ rejectingMdKey ∈ ctx.incomingKeys) := by
  have hg := director_guard ctx
  by_cases hin : rejectingMdKey ∈ ctx.incomingKeys
  · have hb := hg.2 hin
    have hd : director s ctx fullName
        = (ctx, none, some (.status .PermissionDenied "testing rejection")) := by
      unfold director
      simp only [hb, if_true]
      rfl
    refine ⟨fun _ => ⟨hd, ?_⟩, ?_⟩
    · rw [hd]; rfl
    · rw [hd]; simp [hin]
  · have hb : ((FromIncomingContext ctx).2
        && (FromIncomingContext ctx).1.exists rejectingMdKey) = false := by
      cases hc : ((FromIncomingContext ctx).2
        && (FromIncomingContext ctx).1.exists rejectingMdKey)
      · rfl
      · exact absurd (hg.1 hc) hin
    have hd : (director s ctx fullName).2.2 = none := by
      unfold director
      simp only [hb]
      rfl
    exact ⟨fun h => absurd h hin, by rw [hd]; simp [hin]⟩

/-- C5 at a concrete call: the context the test sends, metadata
`test-reject-rpc-if-in-context: true`. -/
theorem director_rejects_witness :
    director (0 : Nat)
        (.withValue .background .mdIncomingKey [("test-reject-rpc-if-in-context", ["true"])])
        "/mwitkow.testproto.TestService/Ping"
      = (.withValue .background .mdIncomingKey [("test-reject-rpc-if-in-context", ["true"])],
          none, some (.status .PermissionDenied "testing rejection")) :=
  ((director_rejects (0 : Nat)
      (.withValue .background .mdIncomingKey [("test-reject-rpc-if-in-context", ["true"])])
      "/mwitkow.testproto.TestService/Ping").1 (by decide)).1

/-- C7. Director acceptance: whenever the inbound metadata lacks the key
"test-reject-rpc-if-in-context", the director returns the backend connection `s` and a
nil error; the outgoing metadata of the returned context is the inbound metadata, entry
for entry; a key of the inbound metadata such as "test-client-header" is a key of the
outgoing metadata; the incoming metadata of the returned context is unchanged; and when
the inbound context has no metadata the outgoing metadata is empty. -/
theorem director_accepts {Conn : Type} (s : Conn) (ctx : Context) (fullName : String)
    (hno : rejectingMdKey ∉ ctx.incomingKeys) :
    (director s ctx fullName).2 = (some s, none)
      ∧ FromOutgoingContext (director s ctx fullName).1 = ((FromIncomingContext ctx).1, true)
      ∧ (clientMdKey ∈ ctx.incomingKeys →
          clientMdKey ∈ (FromOutgoingContext (director s ctx fullName).1).1.map Prod.fst)
      ∧ (director s ctx fullName).1.Value .mdIncomingKey = ctx.Value .mdIncomingKey
      ∧ (ctx.Value .mdIncomingKey = none →
          FromOutgoingContext (director s ctx fullName).1 = ([], true)) := by
  have hg := director_guard ctx
  have hb : ((FromIncomingContext ctx).2
      && (FromIncomingContext ctx).1.exists rejectingMdKey) = false := by
    cases hc : ((FromIncomingContext ctx).2
      && (FromIncomingContext ctx).1.exists rejectingMdKey)
    · rfl
    · exact absurd (hg.1 hc) hno
  have hd : director s ctx fullName
      = (NewOutgoingContext (.withCancel ctx) (FromIncomingContext ctx).1.Copy,
          some s, none) := by
    unfold director
    simp only [hb]
    rfl
  have hout : FromOutgoingContext (director s ctx fullName).1
      = ((FromIncomingContext ctx).1, true) := by
    rw [hd]
    simp [FromOutgoingContext, NewOutgoingContext, Context.Value, MD.Copy_eq]
  refine ⟨by rw [hd], hout, ?_, ?_, ?_⟩
  · intro hk
    rw [hout]
    unfold Context.incomingKeys at hk
    unfold FromIncomingContext
    cases hmd : ctx.Value .mdIncomingKey with
    | none => simp [hmd] at hk
    | some md => simp [hmd] at hk ⊢; exact hk
  · rw [hd]
    simp [NewOutgoingContext, Context.Value]
  · intro hnone
    rw [hout]
    simp [FromIncomingContext, hnone]

/-- C7 at a concrete call: the context of `TestPingEmptyCarriesClientMetadata`,
metadata `test-client-header: true`. -/
theorem director_accepts_witness :
    FromOutgoingContext
        (director (0 : Nat)
          (.withValue .background .mdIncomingKey [("test-client-header", ["true"])])
          "/mwitkow.testproto.TestService/PingEmpty").1
      = ([("test-client-header", ["true"])], true) :=
  (director_accepts (0 : Nat)
    (.withValue .background .mdIncomingKey [("test-client-header", ["true"])])
    "/mwitkow.testproto.TestService/PingEmpty" (by decide)).2.1

/-! ## Theorems: `PingStream` through the proxy -/

theorem wrapInt32_succ (x : Int) : wrapInt32 (wrapInt32 x + 1) = wrapInt32 (x + 1) := by
  unfold wrapInt32
  omega

theorem wrapInt32_of_lt (n : Nat) (h : n < 2147483648) : wrapInt32 n = n := by
  unfold wrapInt32
  omega

theorem pongsFrom_append (n : Nat) (a b : List PingRequest) :
    pongsFrom n (a ++ b) = pongsFrom n a ++ pongsFrom (n + a.length) b := by
  induction a generalizing n with
  | nil => simp [pongsFrom]
  | cons x xs ih =>
    have e : n + 1 + xs.length = n + (xs.length + 1) := by omega
    simp [pongsFrom, ih, e]

theorem pongsFrom_length (n : Nat) (l : List PingRequest) :
    (pongsFrom n l).length = l.length := by
  induction l generalizing n with
  | nil => rfl
  | cons x xs ih => simp [pongsFrom, ih]

theorem pongsFrom_getElem? (n : Nat) (l : List PingRequest) (i : Nat) :
    (pongsFrom n l)[i]?
      = l[i]?.map fun r => { Value := r.Value, Counter := wrapInt32 ((n + i : Nat) : Int) } := by
  induction l generalizing n i with
  | nil => simp [pongsFrom]
  | cons x xs ih =>
    cases i with
    | zero => simp [pongsFrom]
    | succ j =>
      have e : n + 1 + j = n + (j + 1) := by omega
      simp only [pongsFrom, List.getElem?_cons_succ, ih, e]

theorem pongsClaimed_getElem? (n : Nat) (l : List PingRequest) (i : Nat) :
    (pongsClaimed n l)[i]?
      = l[i]?.map fun r => { Value := r.Value, Counter := ((n + i : Nat) : Int) } := by
  induction l generalizing n i with
  | nil => simp [pongsClaimed]
  | cons x xs ih =>
    cases i with
    | zero => simp [pongsClaimed]
    | succ j =>
      have e : n + 1 + j = n + (j + 1) := by omega
      simp only [pongsClaimed, List.getElem?_cons_succ, ih, e]

theorem step_iff (s t : State) :
    Step s t ↔ TestPingStream_FullDuplexWorks s = some t ∨ callerToBackendPump s = some t
      ∨ assertingService.PingStream s = some t ∨ backendToCallerPump s = some t := by
  unfold Step next
  rw [List.reduceOption_mem_iff]
  simp [eq_comm]

theorem TestPingStream_FullDuplexWorks_fuel {s t : State}
    (h : TestPingStream_FullDuplexWorks s = some t) : t.fuel < s.fuel := by
  obtain ⟨pc, remaining, received, ⟨cb, cc⟩, ⟨pb, pcl⟩, ⟨bb, be⟩, ⟨qb, qe⟩, counter⟩ := s
  cases pc <;> cases remaining <;> cases qb <;> rcases qe with _ | _ | _ <;>
    simp [TestPingStream_FullDuplexWorks, ResponseLeg.Recv] at h <;> subst h <;>
    cases pcl <;> cases be <;> simp [State.fuel] <;> omega

theorem callerToBackendPump_fuel {s t : State} (h : callerToBackendPump s = some t) :
    t.fuel < s.fuel := by
  obtain ⟨pc, remaining, received, ⟨cb, cc⟩, ⟨pb, pcl⟩, ⟨bb, be⟩, ⟨qb, qe⟩, counter⟩ := s
  cases pcl <;> cases cb <;> cases cc <;>
    simp [callerToBackendPump, RequestLeg.Recv] at h <;> subst h <;>
    cases be <;> cases qe <;> simp [State.fuel] <;> omega

theorem assertingService.PingStream_fuel {s t : State}
    (h : assertingService.PingStream s = some t) : t.fuel < s.fuel := by
  obtain ⟨pc, remaining, received, ⟨cb, cc⟩, ⟨pb, pcl⟩, ⟨bb, be⟩, ⟨qb, qe⟩, counter⟩ := s
  cases be <;> cases pb <;> cases pcl <;>
    simp [assertingService.PingStream, RequestLeg.Recv] at h <;> subst h <;>
    cases qe <;> simp [State.fuel] <;> omega

theorem backendToCallerPump_fuel {s t : State} (h : backendToCallerPump s = some t) :
    t.fuel < s.fuel := by
  obtain ⟨pc, remaining, received, ⟨cb, cc⟩, ⟨pb, pcl⟩, ⟨bb, be⟩, ⟨qb, qe⟩, counter⟩ := s
  cases qe <;> cases bb <;> rcases be with _ | _ | _ <;> cases pcl <;>
    simp [backendToCallerPump, ResponseLeg.Recv] at h <;> subst h <;>
    simp [State.fuel] <;> omega

theorem step_fuel {s t : State} (h : Step s t) : t.fuel < s.fuel := by
  rcases (step_iff s t).1 h with h | h | h | h
  · exact TestPingStream_FullDuplexWorks_fuel h
  · exact callerToBackendPump_fuel h
  · exact assertingService.PingStream_fuel h
  · exact backendToCallerPump_fuel h

theorem TestPingStream_FullDuplexWorks_data {reqs : List PingRequest} {s t : State}
    (h : TestPingStream_FullDuplexWorks s = some t) (hd : InvData reqs s) (hc : InvCtl s) :
    InvData reqs t := by
  obtain ⟨pc, remaining, received, ⟨cb, cc⟩, ⟨pb, pcl⟩, ⟨bb, be⟩, ⟨qb, qe⟩, counter⟩ := s
  obtain ⟨done, h1, h2, h3⟩ := hd
  cases pc <;> cases remaining <;> cases qb <;> rcases qe with _ | _ | _ <;>
    simp [TestPingStream_FullDuplexWorks, ResponseLeg.Recv] at h <;> subst h <;>
    simp [InvCtl] at hc <;>
    exact ⟨done, by simpa using h1, by simpa using h2, h3⟩

theorem callerToBackendPump_data {reqs : List PingRequest} {s t : State}
    (h : callerToBackendPump s = some t) (hd : InvData reqs s) : InvData reqs t := by
  obtain ⟨pc, remaining, received, ⟨cb, cc⟩, ⟨pb, pcl⟩, ⟨bb, be⟩, ⟨qb, qe⟩, counter⟩ := s
  obtain ⟨done, h1, h2, h3⟩ := hd
  cases pcl <;> cases cb <;> cases cc <;>
    simp [callerToBackendPump, RequestLeg.Recv] at h <;> subst h <;>
    exact ⟨done, by simpa using h1, by simpa using h2, h3⟩

theorem backendToCallerPump_data {reqs : List PingRequest} {s t : State}
    (h : backendToCallerPump s = some t) (hd : InvData reqs s) : InvData reqs t := by
  obtain ⟨pc, remaining, received, ⟨cb, cc⟩, ⟨pb, pcl⟩, ⟨bb, be⟩, ⟨qb, qe⟩, counter⟩ := s
  obtain ⟨done, h1, h2, h3⟩ := hd
  cases qe <;> cases bb <;> rcases be with _ | _ | _ <;> cases pcl <;>
    simp [backendToCallerPump, ResponseLeg.Recv] at h <;> subst h <;>
    exact ⟨done, by simpa using h1, by simpa using h2, h3⟩

theorem assertingService.PingStream_data {reqs : List PingRequest} {s t : State}
    (h : assertingService.PingStream s = some t) (hd : InvData reqs s) : InvData reqs t := by
  obtain ⟨pc, remaining, received, ⟨cb, cc⟩, ⟨pb, pcl⟩, ⟨bb, be⟩, ⟨qb, qe⟩, counter⟩ := s
  obtain ⟨done, h1, h2, h3⟩ := hd
  cases be with
  | some st => simp [assertingService.PingStream] at h
  | none =>
    cases pb with
    | nil =>
      cases pcl <;> simp [assertingService.PingStream, RequestLeg.Recv] at h
      subst h
      exact ⟨done, by simpa using h1, by simpa using h2, h3⟩
    | cons ping rest =>
      simp [assertingService.PingStream, RequestLeg.Recv] at h
      subst h
      refine ⟨done ++ [ping], by simpa using h1, ?_, ?_⟩
      · simp only at h2 h3 ⊢
        rw [pongsFrom_append, ← h2, h3]
        simp [pongsFrom]
      · simp only at h3 ⊢
        rw [h3, wrapInt32_succ]
        simp

theorem TestPingStream_FullDuplexWorks_ctl {s t : State}
    (h : TestPingStream_FullDuplexWorks s = some t) (hc : InvCtl s) : InvCtl t := by
  obtain ⟨pc, remaining, received, ⟨cb, cc⟩, ⟨pb, pcl⟩, ⟨bb, be⟩, ⟨qb, qe⟩, counter⟩ := s
  cases pc <;> cases remaining <;> cases qb <;> rcases qe with _ | _ | _ <;>
    simp [TestPingStream_FullDuplexWorks, ResponseLeg.Recv] at h <;> subst h <;>
    simp_all [InvCtl] <;>
    first
      | omega
      | (simp only [← List.length_eq_zero]; omega)
      | (rcases hc with ⟨_, _, _, hb | hb, _⟩ <;> simp_all)

theorem callerToBackendPump_ctl {s t : State} (h : callerToBackendPump s = some t)
    (hc : InvCtl s) : InvCtl t := by
  obtain ⟨pc, remaining, received, ⟨cb, cc⟩, ⟨pb, pcl⟩, ⟨bb, be⟩, ⟨qb, qe⟩, counter⟩ := s
  cases pcl <;> cases cb <;> cases cc <;>
    simp [callerToBackendPump, RequestLeg.Recv] at h <;> subst h <;>
    cases pc <;> simp_all [InvCtl] <;>
    first
      | omega
      | (rcases hc with ⟨_, _, _, _, _, hq | hq⟩ <;> simp_all)

theorem assertingService.PingStream_ctl {s t : State}
    (h : assertingService.PingStream s = some t) (hc : InvCtl s) : InvCtl t := by
  obtain ⟨pc, remaining, received, ⟨cb, cc⟩, ⟨pb, pcl⟩, ⟨bb, be⟩, ⟨qb, qe⟩, counter⟩ := s
  cases be <;> cases pb <;> cases pcl <;>
    simp [assertingService.PingStream, RequestLeg.Recv] at h <;> subst h <;>
    cases pc <;> simp_all [InvCtl]
  omega

theorem backendToCallerPump_ctl {s t : State} (h : backendToCallerPump s = some t)
    (hc : InvCtl s) : InvCtl t := by
  obtain ⟨pc, remaining, received, ⟨cb, cc⟩, ⟨pb, pcl⟩, ⟨bb, be⟩, ⟨qb, qe⟩, counter⟩ := s
  cases qe <;> cases bb <;> rcases be with _ | _ | _ <;> cases pcl <;>
    simp [backendToCallerPump, ResponseLeg.Recv] at h <;> subst h <;>
    cases pc <;> simp_all [InvCtl]
  omega

theorem inv_start (reqs : List PingRequest) : Inv reqs (State.start reqs) := by
  refine ⟨⟨[], ?_, ?_, ?_⟩, ?_⟩ <;> simp [State.start, pongsFrom, wrapInt32, InvCtl]

theorem step_inv {reqs : List PingRequest} {s t : State} (h : Step s t)
    (hi : Inv reqs s) : Inv reqs t := by
  rcases (step_iff s t).1 h with h | h | h | h
  · exact ⟨TestPingStream_FullDuplexWorks_data h hi.1 hi.2,
      TestPingStream_FullDuplexWorks_ctl h hi.2⟩
  · exact ⟨callerToBackendPump_data h hi.1, callerToBackendPump_ctl h hi.2⟩
  · exact ⟨assertingService.PingStream_data h hi.1, assertingService.PingStream_ctl h hi.2⟩
  · exact ⟨backendToCallerPump_data h hi.1, backendToCallerPump_ctl h hi.2⟩

theorem reachable_inv {reqs : List PingRequest} {s t : State} (h : Reachable s t)
    (hi : Inv reqs s) : Inv reqs t := by
  induction h with
  | refl => exact hi
  | tail _ hstep ih => exact step_inv hstep ih

theorem terminal_no_step {s t : State} (hterm : next s = []) (h : Step s t) : False := by
  unfold Step at h
  simp [hterm] at h

theorem terminal_finished {s : State} (hc : InvCtl s) (hterm : next s = []) :
    s.pc = .finished .eof := by
  have h1 : TestPingStream_FullDuplexWorks s = none := by
    cases hcs : TestPingStream_FullDuplexWorks s with
    | none => rfl
    | some t => exact (terminal_no_step hterm ((step_iff s t).2 (Or.inl hcs))).elim
  have h2 : callerToBackendPump s = none := by
    cases hcs : callerToBackendPump s with
    | none => rfl
    | some t => exact (terminal_no_step hterm ((step_iff s t).2 (Or.inr (Or.inl hcs)))).elim
  have h3 : assertingService.PingStream s = none := by
    cases hcs : assertingService.PingStream s with
    | none => rfl
    | some t =>
      exact (terminal_no_step hterm ((step_iff s t).2 (Or.inr (Or.inr (Or.inl hcs))))).elim
  have h4 : backendToCallerPump s = none := by
    cases hcs : backendToCallerPump s with
    | none => rfl
    | some t =>
      exact (terminal_no_step hterm ((step_iff s t).2 (Or.inr (Or.inr (Or.inr hcs))))).elim
  obtain ⟨pc, remaining, received, ⟨cb, cc⟩, ⟨pb, pcl⟩, ⟨bb, be⟩, ⟨qb, qe⟩, counter⟩ := s
  cases pc with
  | loopSend => cases remaining <;> simp [TestPingStream_FullDuplexWorks] at h1
  | loopRecv =>
    simp [InvCtl] at hc
    obtain ⟨rfl, rfl, rfl, rfl, hlen⟩ := hc
    cases cb <;> cases pb <;> cases bb <;> cases qb <;>
      simp [TestPingStream_FullDuplexWorks, callerToBackendPump, assertingService.PingStream,
        backendToCallerPump, RequestLeg.Recv, ResponseLeg.Recv] at h1 h2 h3 h4 hlen
  | finalRecv =>
    simp [InvCtl] at hc
    obtain ⟨rfl, ⟨rfl, rfl⟩, rfl, rfl, rfl, hb, hq⟩ := hc
    cases pcl <;> rcases be with _ | _ | _ <;> rcases qe with _ | _ | _ <;>
      simp [TestPingStream_FullDuplexWorks, callerToBackendPump, assertingService.PingStream,
        backendToCallerPump, RequestLeg.Recv, ResponseLeg.Recv] at h1 h2 h3 h4 hb hq
  | finished last =>
    simp [InvCtl] at hc
    simp [hc.1]
  | failed e => simp [InvCtl] at hc

theorem exists_terminal_of_fuel (n : Nat) :
    ∀ s : State, s.fuel ≤ n → ∃ t, Reachable s t ∧ next t = [] := by
  induction n with
  | zero =>
    intro s hs
    cases hnext : next s with
    | nil => exact ⟨s, Relation.ReflTransGen.refl, hnext⟩
    | cons u rest =>
      have hstep : Step s u := by unfold Step; simp [hnext]
      have := step_fuel hstep
      omega
  | succ n ih =>
    intro s hs
    cases hnext : next s with
    | nil => exact ⟨s, Relation.ReflTransGen.refl, hnext⟩
    | cons u rest =>
      have hstep : Step s u := by unfold Step; simp [hnext]
      have hlt := step_fuel hstep
      obtain ⟨t, ht, hterm⟩ := ih u (by omega)
      exact ⟨t, Relation.ReflTransGen.head hstep ht, hterm⟩

theorem exists_terminal (s : State) : ∃ t, Reachable s t ∧ next t = [] :=
  exists_terminal_of_fuel s.fuel s (Nat.le_refl _)

theorem chain_length_le (s : State) (l : List State) (h : List.Chain Step s l) :
    l.length ≤ s.fuel := by
  induction l generalizing s with
  | nil => simp
  | cons t rest ih =>
    rw [List.chain_cons] at h
    have h1 := step_fuel h.1
    have h2 := ih t h.2
    simp only [List.length_cons]
    omega

theorem runFuel_reachable (fuel : Nat) (s : State) : Reachable s (runFuel fuel s) := by
  induction fuel generalizing s with
  | zero => exact Relation.ReflTransGen.refl
  | succ n ih =>
    unfold runFuel
    cases hnext : next s with
    | nil => exact Relation.ReflTransGen.refl
    | cons u rest =>
      have hstep : Step s u := by unfold Step; simp [hnext]
      exact Relation.ReflTransGen.head hstep (ih u)

theorem terminal_result {reqs : List PingRequest} {s : State}
    (hr : Reachable (State.start reqs) s) (hterm : next s = []) :
    s.received = pongsFrom 0 reqs ∧ s.pc = .finished .eof
      ∧ s.b2p.ended = some none ∧ s.p2c.ended = some none := by
  have hi := reachable_inv hr (inv_start reqs)
  have hpc := terminal_finished hi.2 hterm
  obtain ⟨⟨done, h1, h2, _⟩, hc⟩ := hi
  obtain ⟨pc, remaining, received, ⟨cb, cc⟩, ⟨pb, pcl⟩, ⟨bb, be⟩, ⟨qb, qe⟩, counter⟩ := s
  simp only at hpc
  subst hpc
  simp [InvCtl] at hc
  obtain ⟨rfl, ⟨rfl, rfl⟩, ⟨rfl, rfl⟩, ⟨rfl, rfl⟩, rfl, rfl⟩ := hc
  simp at h1 h2
  subst h1
  exact ⟨h2, rfl, rfl, rfl⟩

theorem start_fuel (reqs : List PingRequest) : (State.start reqs).fuel = 5 * reqs.length + 5 := by
  simp [State.start, State.fuel]

theorem reachable_in_flight {reqs : List PingRequest} {s : State}
    (hr : Reachable (State.start reqs) s) :
    s.c2p.buf.length + s.p2b.buf.length + s.b2p.buf.length + s.p2c.buf.length ≤ 1 := by
  have hc := (reachable_inv hr (inv_start reqs)).2
  obtain ⟨pc, remaining, received, ⟨cb, cc⟩, ⟨pb, pcl⟩, ⟨bb, be⟩, ⟨qb, qe⟩, counter⟩ := s
  cases pc <;> simp [InvCtl] at hc ⊢
  · obtain ⟨⟨rfl, _⟩, ⟨rfl, _⟩, ⟨rfl, _⟩, rfl, _⟩ := hc; simp
  · omega
  · obtain ⟨_, ⟨rfl, _⟩, rfl, rfl, rfl, _⟩ := hc; simp
  · obtain ⟨_, _, ⟨rfl, _⟩, ⟨rfl, _⟩, ⟨rfl, _⟩, rfl, _⟩ := hc; simp

theorem reachable_prefix {reqs : List PingRequest} {s : State}
    (hr : Reachable (State.start reqs) s) : s.received <+: pongsFrom 0 reqs := by
  obtain ⟨⟨done, h1, h2, _⟩, _⟩ := reachable_inv hr (inv_start reqs)
  rw [h1, pongsFrom_append, ← h2]
  exact ⟨s.p2c.buf ++ s.b2p.buf ++ pongsFrom (0 + done.length) (s.p2b.buf ++ s.c2p.buf ++ s.remaining),
    by simp [List.append_assoc]⟩

/-- C6, as the code has it. For every sequence `reqs` of requests sent on a `PingStream`
call through the proxy, each `Send` followed by a `Recv`, and under every interleaving
of client, proxy pumps and backend: the call comes to an end (some run ends, and no run
has more than `5 * N + 5` steps); at every moment the responses received are a prefix of
the responses the backend produces and at most one message is in flight; and when no participant can move, the client has
received exactly `N` responses, the `i`-th carrying the value of the `i`-th request and
the counter `i` as an `int32` (which is `i` itself for `i < 2^31`), the `Recv` after
`CloseSend` has returned `io.EOF`, and the backend and the proxy have ended the stream
with status OK. -/
theorem pingStream_full_duplex (reqs : List PingRequest) :
    (∃ s, Reachable (State.start reqs) s ∧ next s = [])
      ∧ (∀ l, List.Chain Step (State.start reqs) l → l.length ≤ 5 * reqs.length + 5)
      ∧ (∀ s, Reachable (State.start reqs) s → s.received <+: pongsFrom 0 reqs)
      ∧ (∀ s, Reachable (State.start reqs) s →
          s.c2p.buf.length + s.p2b.buf.length + s.b2p.buf.length + s.p2c.buf.length ≤ 1)
      ∧ (∀ s, Reachable (State.start reqs) s → next s = [] →
          s.received.length = reqs.length
          ∧ (∀ (i : Nat) (r : PingRequest), reqs[i]? = some r →
              s.received[i]? = some (PingResponse.mk r.Value (wrapInt32 i)))
          ∧ (∀ (i : Nat) (r : PingRequest), i < 2147483648 → reqs[i]? = some r →
              s.received[i]? = some (PingResponse.mk r.Value i))
          ∧ s.pc = .finished .eof
          ∧ s.b2p.ended = some none
          ∧ s.p2c.ended = some none) := by
  refine ⟨exists_terminal _, ?_, fun s hr => reachable_prefix hr,
    fun s hr => reachable_in_flight hr, ?_⟩
  · intro l hl
    have := chain_length_le _ l hl
    rwa [start_fuel] at this
  · intro s hr hterm
    obtain ⟨hrec, hpc, hb, hq⟩ := terminal_result hr hterm
    have hget : ∀ (i : Nat) (r : PingRequest), reqs[i]? = some r →
        s.received[i]? = some (PingResponse.mk r.Value (wrapInt32 i)) := by
      intro i r hi
      rw [hrec, pongsFrom_getElem?, hi]
      simp
    refine ⟨by rw [hrec, pongsFrom_length], hget, ?_, hpc, hb, hq⟩
    intro i r hlt hi
    rw [hget i r hi, wrapInt32_of_lt i hlt]

/-- C6 on the stream of the test cut to three pings, under the schedule `runFuel`. -/
theorem pingStream_full_duplex_witness :
    (runFuel 20 (State.start [⟨"foo:0"⟩, ⟨"foo:1"⟩, ⟨"foo:2"⟩])).received.length = 3
      ∧ (runFuel 20 (State.start [⟨"foo:0"⟩, ⟨"foo:1"⟩, ⟨"foo:2"⟩])).received[2]?
          = some (PingResponse.mk "foo:2" 2)
      ∧ (runFuel 20 (State.start [⟨"foo:0"⟩, ⟨"foo:1"⟩, ⟨"foo:2"⟩])).pc = .finished .eof := by
  have h := (pingStream_full_duplex [⟨"foo:0"⟩, ⟨"foo:1"⟩, ⟨"foo:2"⟩]).2.2.2.2
    (runFuel 20 (State.start [⟨"foo:0"⟩, ⟨"foo:1"⟩, ⟨"foo:2"⟩]))
    (runFuel_reachable 20 _) (by decide)
  exact ⟨h.1, h.2.2.1 2 ⟨"foo:2"⟩ (by decide) rfl, h.2.2.2.1⟩

/-- C6 as stated fails: on a stream of `2^31 + 1` pings it is not the case that every
finished call has delivered the responses with `Counter = i`; the response to the ping
of index `2^31` carries the wrapped counter `-2^31`. -/
theorem pingStream_counter_overflow :
    ¬ (∀ s, Reachable (State.start (List.replicate (2147483648 + 1) ⟨"foo"⟩)) s →
        next s = [] →
        s.received = pongsClaimed 0 (List.replicate (2147483648 + 1) ⟨"foo"⟩)) := by
  intro hall
  obtain ⟨s, hr, hterm⟩ := exists_terminal
    (State.start (List.replicate (2147483648 + 1) ⟨"foo"⟩))
  have h1 := (terminal_result hr hterm).1
  have h2 := hall s hr hterm
  have h3 : (pongsFrom 0 (List.replicate (2147483648 + 1) (⟨"foo"⟩ : PingRequest)))[2147483648]?
      = (pongsClaimed 0 (List.replicate (2147483648 + 1) (⟨"foo"⟩ : PingRequest)))[2147483648]? := by
    rw [← h1, ← h2]
  rw [pongsFrom_getElem?, pongsClaimed_getElem?, List.getElem?_replicate] at h3
  rw [if_pos (by omega)] at h3
  simp only [Option.map_some', Option.some.injEq, PingResponse.mk.injEq, true_and,
    Nat.zero_add] at h3
  unfold wrapInt32 at h3
  omega

end GrpcProxy
